import Mathlib

/-!
Shallow embedding of the distance-vector routing simulator
(`CS3S661_CW2_30031906_Rhodri_Morris-Stiff_Program.py`).

Python numbers used as link costs are modelled as `Cost`: a finite
integer (`Cost.fin`) or the `math.inf` sentinel (`Cost.inf`); every
cost occurring in the program and its scenarios is an integer, and
integer arithmetic is exact in Python floats at these magnitudes.
Python dicts are modelled as association lists in insertion order:
lookup takes the first matching key, and assignment replaces the first
matching key in place (appending when the key is new), which matches
CPython dict semantics for the unique-key dicts the program builds.
-/

/-- A Python float/int link cost: a finite integer or `math.inf`. -/
inductive Cost where
  | fin : ℤ → Cost
  | inf : Cost
deriving DecidableEq

namespace Cost

/-- Python `+` on costs: `math.inf` absorbs. -/
def add : Cost → Cost → Cost
  | fin a, fin b => fin (a + b)
  | _, _ => inf

/-- Python `<` on costs (no NaN in this program). -/
def blt : Cost → Cost → Bool
  | fin a, fin b => decide (a < b)
  | fin _, inf => true
  | inf, _ => false

/-- Python `<=` on costs. -/
def ble : Cost → Cost → Bool
  | fin a, fin b => decide (a ≤ b)
  | fin _, inf => true
  | inf, fin _ => false
  | inf, inf => true

/-- The value kept by the strict-improvement rule: the new candidate is
taken exactly when it is strictly below the current value. -/
def min (cur new : Cost) : Cost :=
  if blt new cur then new else cur

end Cost

/-- First-match lookup in an association list (Python `dict.get` /
`dict[k]` on a unique-key dict). -/
def lookupKey {α β : Type} [DecidableEq α] : List (α × β) → α → Option β
  | [], _ => none
  | (k', v) :: rest, k => if k' = k then some v else lookupKey rest k

/-- In-place update of an association list (Python `d[k] = v`): replaces
the first occurrence of `k`, appends when `k` is absent. -/
def setKey {α β : Type} [DecidableEq α] : List (α × β) → α → β → List (α × β)
  | [], k, v => [(k, v)]
  | (k', v') :: rest, k, v =>
      if k' = k then (k, v) :: rest else (k', v') :: setKey rest k v

/-- A routing table: destination ↦ (distance, next hop). -/
abbrev Table (α : Type) := List (α × (Cost × Option α))

/-- Distance recorded for `dest`, `math.inf` when absent
(`routing_table.get(destination, (math.inf, None))[0]`). -/
def curDist {α : Type} [DecidableEq α] (table : Table α) (dest : α) : Cost :=
  match lookupKey table dest with
  | some e => e.1
  | none => Cost.inf

/-- One router: identity, link costs to neighbors, routing table. -/
structure Router (α : Type) where
  router_id : α
  neighbors : List (α × Cost)
  routing_table : Table α
deriving DecidableEq

namespace Router

variable {α : Type} [DecidableEq α]

/-- `Router.get_distance`. -/
def get_distance (r : Router α) (destination : α) : Cost :=
  curDist r.routing_table destination

/-- The split-horizon filter loop: drop every entry whose next hop is the
advertisement's addressee. -/
def filterTable (n : α) : Table α → Table α
  | [] => []
  | (dest, e) :: rest =>
      if e.2 = some n then filterTable n rest
      else (dest, e) :: filterTable n rest

/-- `Router.get_filtered_routing_table`. -/
def get_filtered_routing_table (r : Router α) (for_neighbor_id : α) : Table α :=
  filterTable for_neighbor_id r.routing_table

/-- The body of `update_table_from_neighbor`'s loop over the advertised
table, threading the routing table and the `updated` flag. -/
def updateLoop (self_id : α) (cost_to_neighbor : Cost) (neighbor_id : α) :
    Table α → Table α → Bool → Table α × Bool
  | [], table, updated => (table, updated)
  | (dest, adv) :: rest, table, updated =>
      if dest = self_id then
        updateLoop self_id cost_to_neighbor neighbor_id rest table updated
      else if Cost.blt (cost_to_neighbor.add adv.1) (curDist table dest) then
        updateLoop self_id cost_to_neighbor neighbor_id rest
          (setKey table dest (cost_to_neighbor.add adv.1, some neighbor_id)) true
      else
        updateLoop self_id cost_to_neighbor neighbor_id rest table updated

/-- `self.neighbors.get(neighbor_id, math.inf)`. -/
def costTo (r : Router α) (neighbor_id : α) : Cost :=
  match lookupKey r.neighbors neighbor_id with
  | some c => c
  | none => Cost.inf

/-- `Router.update_table_from_neighbor`: merge an advertised table,
returning the updated router and whether any entry changed. -/
def update_table_from_neighbor (r : Router α) (neighbor_id : α)
    (neighbor_table : Table α) : Router α × Bool :=
  let res := updateLoop r.router_id (r.costTo neighbor_id) neighbor_id
    neighbor_table r.routing_table false
  ({ r with routing_table := res.1 }, res.2)

end Router

section Simulation

variable {α : Type} [DecidableEq α]

/-- `next((r for r in routers if r.router_id == i), None)`. -/
def findRouter (routers : List (Router α)) (i : α) : Option (Router α) :=
  match routers with
  | [] => none
  | r :: rest => if r.router_id = i then some r else findRouter rest i

/-- Set the link cost to `n` to `math.inf` when `n` is a recorded
neighbor (`if b_id in router_a.neighbors: ... = math.inf`). -/
def failLink (r : Router α) (n : α) : Router α :=
  match lookupKey r.neighbors n with
  | some _ => { r with neighbors := setKey r.neighbors n Cost.inf }
  | none => r

/-- Apply `f` to the first router whose id is `i` (Python mutates the
object `next(...)` found). -/
def mapFirst (i : α) (f : Router α → Router α) : List (Router α) → List (Router α)
  | [] => []
  | r :: rest => if r.router_id = i then f r :: rest else r :: mapFirst i f rest

/-- `simulate_link_failure`: when both endpoints exist, set each
direction of the link to `math.inf` (when present). -/
def simulate_link_failure (routers : List (Router α)) (fail_pair : α × α) :
    List (Router α) :=
  match findRouter routers fail_pair.1, findRouter routers fail_pair.2 with
  | some _, some _ =>
      mapFirst fail_pair.2 (fun r => failLink r fail_pair.1)
        (mapFirst fail_pair.1 (fun r => failLink r fail_pair.2) routers)
  | _, _ => routers

/-- The advertisement snapshot `all_filtered_tables`: for each sender,
its split-horizon table for each of its neighbors, all computed before
any merge of the round. -/
def buildSnapshots (routers : List (Router α)) : List (α × List (α × Table α)) :=
  routers.foldl
    (fun acc r =>
      setKey acc r.router_id
        (r.neighbors.foldl
          (fun inner e => setKey inner e.1 (r.get_filtered_routing_table e.1)) []))
    []

/-- The `(sender_id, neighbor_id)` delivery sequence of the merge phase,
in roster order then neighbor-dict order. -/
def deliveryPairs (routers : List (Router α)) : List (α × α) :=
  routers.flatMap (fun r => r.neighbors.map (fun e => (r.router_id, e.1)))

/-- Deliver one advertisement to the first router whose id is `nbr`;
`none` models the `StopIteration` of `next(...)` when no router has that
id. Returns the new roster and whether the receiver changed. -/
def deliver (sender nbr : α) (t : Table α) :
    List (Router α) → Option (List (Router α) × Bool)
  | [] => none
  | r :: rest =>
      if r.router_id = nbr then
        let res := r.update_table_from_neighbor sender t
        some (res.1 :: rest, res.2)
      else
        match deliver sender nbr t rest with
        | some (rest', u) => some (r :: rest', u)
        | none => none

/-- The merge phase: deliver each snapshotted advertisement in order,
counting deliveries that changed the receiver. `none` models a Python
`KeyError`/`StopIteration` on a malformed roster. -/
def mergePhase (snap : List (α × List (α × Table α))) :
    List (α × α) → List (Router α) → Nat → Option (List (Router α) × Nat)
  | [], routers, cnt => some (routers, cnt)
  | (sender, nbr) :: rest, routers, cnt =>
      match lookupKey snap sender with
      | none => none
      | some inner =>
          match lookupKey inner nbr with
          | none => none
          | some t =>
              match deliver sender nbr t routers with
              | none => none
              | some (routers', u) =>
                  mergePhase snap rest routers' (cnt + (if u then 1 else 0))

/-- One exchange round: snapshot all advertisements from the pre-round
tables, then deliver them all, returning the new roster and
`updates_this_round`. -/
def runRound (routers : List (Router α)) : Option (List (Router α) × Nat) :=
  mergePhase (buildSnapshots routers) (deliveryPairs routers) routers 0

/-- The iteration loop of `run_distance_vector_simulation`: apply the
scheduled link failure, run a round, stop at convergence
(`updates == 0`) or when the iteration budget runs out. -/
def simLoop (fail_pair : α × α) (link_failure_iter : Option Nat) :
    Nat → Nat → List (Router α) → Option (List (Router α))
  | 0, _, routers => some routers
  | fuel + 1, iteration, routers =>
      let routers1 :=
        if link_failure_iter = some iteration then
          simulate_link_failure routers fail_pair
        else routers
      match runRound routers1 with
      | none => none
      | some (routers2, cnt) =>
          if cnt = 0 then some routers2
          else simLoop fail_pair link_failure_iter fuel (iteration + 1) routers2

/-- `run_distance_vector_simulation` (final roster; printing and pacing
are presentation-only and omitted). -/
def run_distance_vector_simulation (routers : List (Router α))
    (max_iterations : Nat) (link_failure_iter : Option Nat)
    (fail_pair : α × α) : Option (List (Router α)) :=
  simLoop fail_pair link_failure_iter max_iterations 1 routers

end Simulation

section Candidates

variable {α : Type} [DecidableEq α]

/-- The candidate costs an advertised table `adv` offers a router
`self` for destination `dest`: one `cost_to_neighbor + neighbor_dist`
per advertised entry for `dest` other than the self entry. -/
def candsOfAdv (self : α) (cost_to_neighbor : Cost) (adv : Table α) (dest : α) :
    List Cost :=
  adv.filterMap (fun e =>
    if e.1 = dest ∧ ¬ dest = self then some (cost_to_neighbor.add e.2.1) else none)

/-- The candidate costs router `x` is offered for `dest` by one
advertisement of sender `s` (as snapshotted by the round). -/
def advCands (x s : Router α) (dest : α) : List Cost :=
  candsOfAdv x.router_id (x.costTo s.router_id)
    (s.get_filtered_routing_table x.router_id) dest

/-- The candidate costs one delivery `(sender, neighbor)` offers router
`x` for `dest`, resolving the advertisement through the snapshot. -/
def pairCandBody (snap : List (α × List (α × Table α))) (x : Router α)
    (dest : α) (p : α × α) : List Cost :=
  if p.2 = x.router_id then
    match lookupKey snap p.1 with
    | some inner =>
        match lookupKey inner p.2 with
        | some t => candsOfAdv x.router_id (x.costTo p.1) t dest
        | none => []
    | none => []
  else []

/-- The candidate costs the delivery sequence `pairs` offers router `x`
for `dest`, resolving advertisements through the snapshot `snap`. -/
def pairCands (snap : List (α × List (α × Table α))) (x : Router α)
    (pairs : List (α × α)) (dest : α) : List Cost :=
  pairs.flatMap (pairCandBody snap x dest)

end Candidates

/-- Router states reachable by the program's operations: construction
(`Router.__init__`'s result state), merging any advertisement
(`update_table_from_neighbor`), and the per-endpoint effect of
`simulate_link_failure` (setting one recorded link cost to `math.inf`). -/
inductive Reachable {α : Type} [DecidableEq α] : Router α → Prop where
  | init (id : α) (nbrs : List (α × Cost)) :
      Reachable { router_id := id, neighbors := nbrs,
                  routing_table := [(id, (Cost.fin 0, none))] }
  | update (r : Router α) (nb : α) (t : Table α) :
      Reachable r → Reachable (r.update_table_from_neighbor nb t).1
  | fail (r : Router α) (n : α) :
      Reachable r → Reachable (failLink r n)

/-!
Dynamic Python values, for `Router.__init__`'s argument validation.
A value is an `int`, a `float` (finite or `math.inf`), a `str`, or
`None` (standing for any value of another type). `bool` is a subclass
of `int` in Python and needs no separate case.
-/

/-- A dynamically typed Python value passed to `Router.__init__`. -/
inductive PyVal where
  | intv : ℤ → PyVal
  | floatv : Cost → PyVal
  | strv : String → PyVal
  | nonev : PyVal
deriving DecidableEq

/-- `isinstance(v, (int, str))`. -/
def PyVal.isIdType : PyVal → Bool
  | intv _ => true
  | strv _ => true
  | _ => false

/-- The numeric value of `v` when `isinstance(v, (int, float))`. -/
def PyVal.asNumber : PyVal → Option Cost
  | intv n => some (Cost.fin n)
  | floatv c => some c
  | _ => none

/-- The neighbor-validation loop of `Router.__init__`: each neighbor id
must be `int` or `str`, each cost numeric and `>= 0`; the first failing
check raises. Returns the validated cost map. -/
def checkNeighbors : List (PyVal × PyVal) → Except String (List (PyVal × Cost))
  | [] => Except.ok []
  | (nid, cost) :: rest =>
      if nid.isIdType then
        match cost.asNumber with
        | some c =>
            if Cost.ble (Cost.fin 0) c then
              match checkNeighbors rest with
              | Except.ok l => Except.ok ((nid, c) :: l)
              | Except.error e => Except.error e
            else Except.error "Link cost must be a non-negative number."
        | none => Except.error "Link cost must be a non-negative number."
      else Except.error "Neighbor IDs must be int or str."

/-- `Router.__init__`: validate the id and the neighbor map, then build
the router with the single self entry `{id: (0, None)}`. A raised
`ValueError` is the `Except.error` case. -/
def Router.init (router_id : PyVal) (neighbors : List (PyVal × PyVal)) :
    Except String (Router PyVal) :=
  if router_id.isIdType then
    match checkNeighbors neighbors with
    | Except.ok nbrs =>
        Except.ok { router_id := router_id, neighbors := nbrs,
                    routing_table := [(router_id, (Cost.fin 0, none))] }
    | Except.error e => Except.error e
  else Except.error "router_id must be int or str."

/-- The routing-table entry of router `rid` for `dest` in a simulation
result. -/
def finalEntry (res : Option (List (Router ℕ))) (rid dest : ℕ) :
    Option (Cost × Option ℕ) :=
  match res with
  | some rs =>
      match findRouter rs rid with
      | some r => lookupKey r.routing_table dest
      | none => none
  | none => none

/-- The triangle roster built in `main`:
`1↔2` cost 2, `1↔3` cost 5, `2↔3` cost 1. -/
def mainRouters : List (Router ℕ) :=
  [ { router_id := 1, neighbors := [(2, Cost.fin 2), (3, Cost.fin 5)],
      routing_table := [(1, (Cost.fin 0, none))] },
    { router_id := 2, neighbors := [(1, Cost.fin 2), (3, Cost.fin 1)],
      routing_table := [(2, (Cost.fin 0, none))] },
    { router_id := 3, neighbors := [(1, Cost.fin 5), (2, Cost.fin 1)],
      routing_table := [(3, (Cost.fin 0, none))] } ]

/-- A square topology with two equal-cost paths between routers 1 and 4:
`1↔2`, `1↔3`, `2↔4`, `3↔4`, all of cost 1. -/
def sqR1 : Router ℕ :=
  { router_id := 1, neighbors := [(2, Cost.fin 1), (3, Cost.fin 1)],
    routing_table := [(1, (Cost.fin 0, none))] }

/-- Second square router. -/
def sqR2 : Router ℕ :=
  { router_id := 2, neighbors := [(1, Cost.fin 1), (4, Cost.fin 1)],
    routing_table := [(2, (Cost.fin 0, none))] }

/-- Third square router. -/
def sqR3 : Router ℕ :=
  { router_id := 3, neighbors := [(1, Cost.fin 1), (4, Cost.fin 1)],
    routing_table := [(3, (Cost.fin 0, none))] }

/-- Fourth square router. -/
def sqR4 : Router ℕ :=
  { router_id := 4, neighbors := [(2, Cost.fin 1), (3, Cost.fin 1)],
    routing_table := [(4, (Cost.fin 0, none))] }

/-- The square roster iterated in order 1, 2, 3, 4. -/
def squareRosterA : List (Router ℕ) := [sqR1, sqR2, sqR3, sqR4]

/-- The same four routers iterated in order 1, 3, 2, 4. -/
def squareRosterB : List (Router ℕ) := [sqR1, sqR3, sqR2, sqR4]

/-- The converged triangle roster of the no-failure run (also the state
after two exchange rounds). -/
def triFinal : List (Router ℕ) :=
  [ { router_id := 1, neighbors := [(2, Cost.fin 2), (3, Cost.fin 5)],
      routing_table :=
        [(1, (Cost.fin 0, none)), (2, (Cost.fin 2, some 2)), (3, (Cost.fin 3, some 2))] },
    { router_id := 2, neighbors := [(1, Cost.fin 2), (3, Cost.fin 1)],
      routing_table :=
        [(2, (Cost.fin 0, none)), (1, (Cost.fin 2, some 1)), (3, (Cost.fin 1, some 3))] },
    { router_id := 3, neighbors := [(1, Cost.fin 5), (2, Cost.fin 1)],
      routing_table :=
        [(3, (Cost.fin 0, none)), (1, (Cost.fin 3, some 2)), (2, (Cost.fin 1, some 2))] } ]

/-- The final triangle roster of the link-failure run: the `1↔2` link
costs are `math.inf`, but every routing table still holds its
pre-failure entries. -/
def triFailFinal : List (Router ℕ) :=
  [ { router_id := 1, neighbors := [(2, Cost.inf), (3, Cost.fin 5)],
      routing_table :=
        [(1, (Cost.fin 0, none)), (2, (Cost.fin 2, some 2)), (3, (Cost.fin 3, some 2))] },
    { router_id := 2, neighbors := [(1, Cost.inf), (3, Cost.fin 1)],
      routing_table :=
        [(2, (Cost.fin 0, none)), (1, (Cost.fin 2, some 1)), (3, (Cost.fin 1, some 3))] },
    { router_id := 3, neighbors := [(1, Cost.fin 5), (2, Cost.fin 1)],
      routing_table :=
        [(3, (Cost.fin 0, none)), (1, (Cost.fin 3, some 2)), (2, (Cost.fin 1, some 2))] } ]

/-- The triangle run of `main` with the link failure disabled
(`link_failure_iter = None`). -/
def noFailureRun : Option (List (Router ℕ)) :=
  run_distance_vector_simulation mainRouters 10 none (1, 2)

/-- The triangle run of `main` as configured there: failure of link
`1↔2` at iteration 3, at most 10 iterations. -/
def failureRun : Option (List (Router ℕ)) :=
  run_distance_vector_simulation mainRouters 10 (some 3) (1, 2)

/-- The triangle roster after one exchange round (6 deliveries caused
updates). -/
def triRound1 : List (Router ℕ) :=
  [ { router_id := 1, neighbors := [(2, Cost.fin 2), (3, Cost.fin 5)],
      routing_table :=
        [(1, (Cost.fin 0, none)), (2, (Cost.fin 2, some 2)), (3, (Cost.fin 5, some 3))] },
    { router_id := 2, neighbors := [(1, Cost.fin 2), (3, Cost.fin 1)],
      routing_table :=
        [(2, (Cost.fin 0, none)), (1, (Cost.fin 2, some 1)), (3, (Cost.fin 1, some 3))] },
    { router_id := 3, neighbors := [(1, Cost.fin 5), (2, Cost.fin 1)],
      routing_table :=
        [(3, (Cost.fin 0, none)), (1, (Cost.fin 5, some 1)), (2, (Cost.fin 1, some 2))] } ]

/-- The square roster in order 1, 2, 3, 4 after one exchange round. -/
def sqRound1A : List (Router ℕ) :=
  [ { router_id := 1, neighbors := [(2, Cost.fin 1), (3, Cost.fin 1)],
      routing_table :=
        [(1, (Cost.fin 0, none)), (2, (Cost.fin 1, some 2)), (3, (Cost.fin 1, some 3))] },
    { router_id := 2, neighbors := [(1, Cost.fin 1), (4, Cost.fin 1)],
      routing_table :=
        [(2, (Cost.fin 0, none)), (1, (Cost.fin 1, some 1)), (4, (Cost.fin 1, some 4))] },
    { router_id := 3, neighbors := [(1, Cost.fin 1), (4, Cost.fin 1)],
      routing_table :=
        [(3, (Cost.fin 0, none)), (1, (Cost.fin 1, some 1)), (4, (Cost.fin 1, some 4))] },
    { router_id := 4, neighbors := [(2, Cost.fin 1), (3, Cost.fin 1)],
      routing_table :=
        [(4, (Cost.fin 0, none)), (2, (Cost.fin 1, some 2)), (3, (Cost.fin 1, some 3))] } ]

/-- The square roster in order 1, 3, 2, 4 after one exchange round. -/
def sqRound1B : List (Router ℕ) :=
  [ { router_id := 1, neighbors := [(2, Cost.fin 1), (3, Cost.fin 1)],
      routing_table :=
        [(1, (Cost.fin 0, none)), (3, (Cost.fin 1, some 3)), (2, (Cost.fin 1, some 2))] },
    { router_id := 3, neighbors := [(1, Cost.fin 1), (4, Cost.fin 1)],
      routing_table :=
        [(3, (Cost.fin 0, none)), (1, (Cost.fin 1, some 1)), (4, (Cost.fin 1, some 4))] },
    { router_id := 2, neighbors := [(1, Cost.fin 1), (4, Cost.fin 1)],
      routing_table :=
        [(2, (Cost.fin 0, none)), (1, (Cost.fin 1, some 1)), (4, (Cost.fin 1, some 4))] },
    { router_id := 4, neighbors := [(2, Cost.fin 1), (3, Cost.fin 1)],
      routing_table :=
        [(4, (Cost.fin 0, none)), (3, (Cost.fin 1, some 3)), (2, (Cost.fin 1, some 2))] } ]

/-- A two-entry advertised table with distinct keys, used to exercise
the merge rule on a concrete input. -/
def advW : Table ℕ := [(2, (Cost.fin 0, none)), (4, (Cost.fin 7, some 9))]

/-- A concrete reachable router: the result of one merge applied to a
freshly constructed router. -/
def c3W : Router ℕ :=
  (({ router_id := 1, neighbors := [(2, Cost.fin 2)],
      routing_table := [(1, (Cost.fin 0, none))] } : Router ℕ).update_table_from_neighbor
    2 [(2, (Cost.fin 0, none))]).1

/-- The router produced by a successful validated construction. -/
def c9W : Router PyVal :=
  { router_id := PyVal.intv 1, neighbors := [(PyVal.intv 2, Cost.fin 2)],
    routing_table := [(PyVal.intv 1, (Cost.fin 0, none))] }

/-!
## Order and arithmetic lemmas for `Cost`
-/

namespace Cost

theorem ble_refl (a : Cost) : ble a a = true := by
  cases a <;> simp [ble]

theorem ble_trans {a b c : Cost} (h1 : ble a b = true) (h2 : ble b c = true) :
    ble a c = true := by
  cases a <;> cases b <;> cases c <;> simp [ble] at h1 h2 ⊢ <;> omega

theorem ble_antisymm {a b : Cost} (h1 : ble a b = true) (h2 : ble b a = true) :
    a = b := by
  cases a <;> cases b <;> simp [ble] at h1 h2 ⊢ <;> omega

theorem ble_of_blt {a b : Cost} (h : blt a b = true) : ble a b = true := by
  cases a <;> cases b <;> simp [blt, ble] at h ⊢ <;> omega

theorem ble_of_not_blt {a b : Cost} (h : blt a b = false) : ble b a = true := by
  cases a <;> cases b <;> simp [blt, ble] at h ⊢ <;> omega

theorem add_inf_left (c : Cost) : add inf c = inf := by
  cases c <;> rfl

theorem blt_inf_left (c : Cost) : blt inf c = false := by
  cases c <;> rfl

theorem min_ble_left (cur new : Cost) : ble (min cur new) cur = true := by
  cases hb : blt new cur <;> simp [min, hb]
  · exact ble_refl cur
  · exact ble_of_blt hb

theorem min_ble_right (cur new : Cost) : ble (min cur new) new = true := by
  cases hb : blt new cur <;> simp [min, hb]
  · exact ble_of_not_blt hb
  · exact ble_refl new

theorem min_eq_or (cur new : Cost) : min cur new = cur ∨ min cur new = new := by
  cases hb : blt new cur <;> simp [min, hb]

theorem foldl_min_ble_init (l : List Cost) (b : Cost) :
    ble (l.foldl min b) b = true := by
  induction l generalizing b with
  | nil => exact ble_refl b
  | cons x t ih => exact ble_trans (ih (min b x)) (min_ble_left b x)

theorem foldl_min_ble_mem {l : List Cost} {c : Cost} (h : c ∈ l) (b : Cost) :
    ble (l.foldl min b) c = true := by
  induction l generalizing b with
  | nil => cases h
  | cons x t ih =>
      rcases List.mem_cons.mp h with h' | h'
      · subst h'
        exact ble_trans (foldl_min_ble_init t (min b c)) (min_ble_right b c)
      · exact ih h' (min b x)

theorem foldl_min_eq_or (l : List Cost) (b : Cost) :
    l.foldl min b = b ∨ l.foldl min b ∈ l := by
  induction l generalizing b with
  | nil => exact Or.inl rfl
  | cons x t ih =>
      rcases ih (min b x) with h | h
      · rcases min_eq_or b x with h' | h'
        · exact Or.inl (by rw [List.foldl_cons, h, h'])
        · refine Or.inr ?_
          rw [List.foldl_cons, h, h']
          exact List.mem_cons_self x t
      · exact Or.inr (List.mem_cons_of_mem x h)

end Cost

/-!
## Association-list lemmas
-/

section AssocLemmas

variable {α β : Type} [DecidableEq α]

theorem lookupKey_setKey_self (l : List (α × β)) (k : α) (v : β) :
    lookupKey (setKey l k v) k = some v := by
  induction l with
  | nil => simp [setKey, lookupKey]
  | cons p t ih =>
      obtain ⟨a, b⟩ := p
      by_cases h : a = k
      · simp [setKey, h, lookupKey]
      · simp [setKey, h, lookupKey, ih]

theorem lookupKey_setKey_ne {k k' : α} (l : List (α × β)) (v : β) (h : ¬ k' = k) :
    lookupKey (setKey l k v) k' = lookupKey l k' := by
  have hkk' : ¬ k = k' := fun hh => h hh.symm
  induction l with
  | nil => simp [setKey, lookupKey, hkk']
  | cons p t ih =>
      obtain ⟨a, b⟩ := p
      by_cases ha : a = k
      · subst ha
        simp [setKey, lookupKey, hkk']
      · simp [setKey, ha, lookupKey, ih]

theorem curDist_setKey_self (l : Table α) (k : α) (v : Cost × Option α) :
    curDist (setKey l k v) k = v.1 := by
  simp [curDist, lookupKey_setKey_self]

theorem curDist_setKey_ne {k k' : α} (l : Table α) (v : Cost × Option α)
    (h : ¬ k' = k) : curDist (setKey l k v) k' = curDist l k' := by
  simp [curDist, lookupKey_setKey_ne l v h]

end AssocLemmas

/-!
## Unfolding equations and characterizations of the merge loop
-/

section UpdateLoopLemmas

variable {α : Type} [DecidableEq α]

theorem updateLoop_cons_skip (self : α) (c : Cost) (nb k : α) (d : Cost × Option α)
    (rest : Table α) (table : Table α) (u : Bool) (hk : k = self) :
    Router.updateLoop self c nb ((k, d) :: rest) table u =
      Router.updateLoop self c nb rest table u := by
  simp [Router.updateLoop, hk]

theorem updateLoop_cons_write (self : α) (c : Cost) (nb k : α) (d : Cost × Option α)
    (rest : Table α) (table : Table α) (u : Bool) (hk : ¬ k = self)
    (hb : Cost.blt (c.add d.1) (curDist table k) = true) :
    Router.updateLoop self c nb ((k, d) :: rest) table u =
      Router.updateLoop self c nb rest
        (setKey table k (c.add d.1, some nb)) true := by
  simp [Router.updateLoop, hk, hb]

theorem updateLoop_cons_keep (self : α) (c : Cost) (nb k : α) (d : Cost × Option α)
    (rest : Table α) (table : Table α) (u : Bool) (hk : ¬ k = self)
    (hb : Cost.blt (c.add d.1) (curDist table k) = false) :
    Router.updateLoop self c nb ((k, d) :: rest) table u =
      Router.updateLoop self c nb rest table u := by
  simp [Router.updateLoop, hk, hb]

theorem candsOfAdv_cons_none (self : α) (c : Cost) (k : α) (d : Cost × Option α)
    (rest : Table α) (dest : α) (h : ¬ (k = dest ∧ ¬ dest = self)) :
    candsOfAdv self c ((k, d) :: rest) dest = candsOfAdv self c rest dest := by
  simp only [candsOfAdv, List.filterMap_cons, if_neg h]

theorem candsOfAdv_cons_some (self : α) (c : Cost) (k : α) (d : Cost × Option α)
    (rest : Table α) (dest : α) (h1 : k = dest) (h2 : ¬ dest = self) :
    candsOfAdv self c ((k, d) :: rest) dest =
      c.add d.1 :: candsOfAdv self c rest dest := by
  simp only [candsOfAdv, List.filterMap_cons, if_pos (And.intro h1 h2)]

theorem updateLoop_flag_mono (self : α) (c : Cost) (nb : α) (adv table : Table α) :
    (Router.updateLoop self c nb adv table true).2 = true := by
  induction adv generalizing table with
  | nil => rfl
  | cons e rest ih =>
      obtain ⟨k, d⟩ := e
      by_cases hk : k = self
      · rw [updateLoop_cons_skip self c nb k d rest table true hk]
        exact ih table
      · cases hb : Cost.blt (c.add d.1) (curDist table k) with
        | true =>
            rw [updateLoop_cons_write self c nb k d rest table true hk hb]
            exact ih _
        | false =>
            rw [updateLoop_cons_keep self c nb k d rest table true hk hb]
            exact ih table

theorem updateLoop_self_lookup (self : α) (c : Cost) (nb : α)
    (adv table : Table α) (u : Bool) :
    lookupKey (Router.updateLoop self c nb adv table u).1 self =
      lookupKey table self := by
  induction adv generalizing table u with
  | nil => rfl
  | cons e rest ih =>
      obtain ⟨k, d⟩ := e
      by_cases hk : k = self
      · rw [updateLoop_cons_skip self c nb k d rest table u hk]
        exact ih table u
      · cases hb : Cost.blt (c.add d.1) (curDist table k) with
        | true =>
            rw [updateLoop_cons_write self c nb k d rest table u hk hb, ih _ true,
              lookupKey_setKey_ne table _ (fun hh => hk hh.symm)]
        | false =>
            rw [updateLoop_cons_keep self c nb k d rest table u hk hb]
            exact ih table u

theorem updateLoop_frame (self : α) (c : Cost) (nb : α) {k : α}
    (adv table : Table α) (u : Bool) (hk : k ∉ adv.map Prod.fst) :
    lookupKey (Router.updateLoop self c nb adv table u).1 k =
      lookupKey table k := by
  induction adv generalizing table u with
  | nil => rfl
  | cons e rest ih =>
      obtain ⟨k0, d⟩ := e
      have h1 : ¬ k = k0 ∧ k ∉ rest.map Prod.fst := by
        constructor
        · intro hh
          exact hk (by simp [hh])
        · intro hh
          exact hk (by simp [hh])
      by_cases hk0 : k0 = self
      · rw [updateLoop_cons_skip self c nb k0 d rest table u hk0]
        exact ih table u h1.2
      · cases hb : Cost.blt (c.add d.1) (curDist table k0) with
        | true =>
            rw [updateLoop_cons_write self c nb k0 d rest table u hk0 hb,
              ih _ true h1.2, lookupKey_setKey_ne table _ h1.1]
        | false =>
            rw [updateLoop_cons_keep self c nb k0 d rest table u hk0 hb]
            exact ih table u h1.2

theorem updateLoop_false (self : α) (c : Cost) (nb : α) (adv table : Table α)
    (u : Bool) (h : (Router.updateLoop self c nb adv table u).2 = false) :
    (Router.updateLoop self c nb adv table u).1 = table ∧ u = false := by
  induction adv generalizing table u with
  | nil => exact ⟨rfl, h⟩
  | cons e rest ih =>
      obtain ⟨k, d⟩ := e
      by_cases hk : k = self
      · rw [updateLoop_cons_skip self c nb k d rest table u hk] at h ⊢
        exact ih table u h
      · cases hb : Cost.blt (c.add d.1) (curDist table k) with
        | true =>
            exfalso
            rw [updateLoop_cons_write self c nb k d rest table u hk hb,
              updateLoop_flag_mono] at h
            exact Bool.noConfusion h
        | false =>
            rw [updateLoop_cons_keep self c nb k d rest table u hk hb] at h ⊢
            exact ih table u h

theorem updateLoop_flag (self : α) (c : Cost) (nb : α) (adv table : Table α)
    (u : Bool) :
    (Router.updateLoop self c nb adv table u).2 =
      (u || adv.any (fun e =>
        !(decide (e.1 = self)) && Cost.blt (c.add e.2.1) (curDist table e.1))) := by
  induction adv generalizing table u with
  | nil => simp [Router.updateLoop]
  | cons e rest ih =>
      obtain ⟨k, d⟩ := e
      by_cases hk : k = self
      · rw [updateLoop_cons_skip self c nb k d rest table u hk, ih table u]
        simp [List.any_cons, hk]
      · cases hb : Cost.blt (c.add d.1) (curDist table k) with
        | true =>
            rw [updateLoop_cons_write self c nb k d rest table u hk hb,
              updateLoop_flag_mono]
            simp [List.any_cons, hk, hb]
        | false =>
            rw [updateLoop_cons_keep self c nb k d rest table u hk hb, ih table u]
            simp [List.any_cons, hk, hb]

theorem updateLoop_curDist (self : α) (c : Cost) (nb : α) (adv table : Table α)
    (u : Bool) (dest : α) :
    curDist (Router.updateLoop self c nb adv table u).1 dest =
      (candsOfAdv self c adv dest).foldl Cost.min (curDist table dest) := by
  induction adv generalizing table u with
  | nil => rfl
  | cons e rest ih =>
      obtain ⟨k, d⟩ := e
      by_cases hk : k = self
      · have hpick : ¬ (k = dest ∧ ¬ dest = self) := by
          rintro ⟨h1, h2⟩
          exact h2 (h1 ▸ hk)
        rw [updateLoop_cons_skip self c nb k d rest table u hk,
          candsOfAdv_cons_none self c k d rest dest hpick]
        exact ih table u
      · by_cases hkd : k = dest
        · subst hkd
          have hds : ¬ k = self := hk
          cases hb : Cost.blt (c.add d.1) (curDist table k) with
          | true =>
              rw [updateLoop_cons_write self c nb k d rest table u hk hb,
                candsOfAdv_cons_some self c k d rest k rfl hds, ih _ true,
                List.foldl_cons, curDist_setKey_self]
              have hm : Cost.min (curDist table k) (c.add d.1) = c.add d.1 := by
                simp [Cost.min, hb]
              rw [hm]
          | false =>
              rw [updateLoop_cons_keep self c nb k d rest table u hk hb,
                candsOfAdv_cons_some self c k d rest k rfl hds, ih table u,
                List.foldl_cons]
              have hm : Cost.min (curDist table k) (c.add d.1) = curDist table k := by
                simp [Cost.min, hb]
              rw [hm]
        · have hpick : ¬ (k = dest ∧ ¬ dest = self) := by
            rintro ⟨h1, _⟩
            exact hkd h1
          rw [candsOfAdv_cons_none self c k d rest dest hpick]
          cases hb : Cost.blt (c.add d.1) (curDist table k) with
          | true =>
              rw [updateLoop_cons_write self c nb k d rest table u hk hb, ih _ true,
                curDist_setKey_ne table _ (fun hh => hkd hh.symm)]
          | false =>
              rw [updateLoop_cons_keep self c nb k d rest table u hk hb]
              exact ih table u

end UpdateLoopLemmas

/-!
## Small frame lemmas on routers
-/

section RouterFrame

variable {α : Type} [DecidableEq α]

theorem update_router_id (r : Router α) (nb : α) (t : Table α) :
    (r.update_table_from_neighbor nb t).1.router_id = r.router_id := rfl

theorem update_neighbors (r : Router α) (nb : α) (t : Table α) :
    (r.update_table_from_neighbor nb t).1.neighbors = r.neighbors := rfl

theorem update_routing_table (r : Router α) (nb : α) (t : Table α) :
    (r.update_table_from_neighbor nb t).1.routing_table =
      (Router.updateLoop r.router_id (r.costTo nb) nb t r.routing_table false).1 :=
  rfl

theorem update_flag (r : Router α) (nb : α) (t : Table α) :
    (r.update_table_from_neighbor nb t).2 =
      (Router.updateLoop r.router_id (r.costTo nb) nb t r.routing_table false).2 :=
  rfl

theorem failLink_routing_table (r : Router α) (n : α) :
    (failLink r n).routing_table = r.routing_table := by
  cases h : lookupKey r.neighbors n <;> simp [failLink, h]

theorem failLink_router_id (r : Router α) (n : α) :
    (failLink r n).router_id = r.router_id := by
  cases h : lookupKey r.neighbors n <;> simp [failLink, h]

end RouterFrame

/-!
## C1: the strict-improvement merge rule
-/

section ClaimOne

variable {α : Type} [DecidableEq α]

theorem updateLoop_lookup_mem (self : α) (c : Cost) (nb : α)
    (adv table : Table α) (u : Bool) (hnd : (adv.map Prod.fst).Nodup)
    {k : α} {e : Cost × Option α} (hmem : (k, e) ∈ adv) (hk : ¬ k = self) :
    lookupKey (Router.updateLoop self c nb adv table u).1 k =
      (if Cost.blt (c.add e.1) (curDist table k)
       then some (c.add e.1, some nb)
       else lookupKey table k) := by
  induction adv generalizing table u with
  | nil => cases hmem
  | cons p rest ih =>
      obtain ⟨k0, d⟩ := p
      have hnd' : k0 ∉ rest.map Prod.fst ∧ (rest.map Prod.fst).Nodup :=
        List.nodup_cons.mp (by simpa using hnd)
      rcases List.mem_cons.mp hmem with hh | hh
      · cases hh
        cases hb : Cost.blt (c.add e.1) (curDist table k) with
        | true =>
            rw [updateLoop_cons_write self c nb k e rest table u hk hb,
              updateLoop_frame self c nb rest _ true hnd'.1,
              lookupKey_setKey_self]
            simp
        | false =>
            rw [updateLoop_cons_keep self c nb k e rest table u hk hb,
              updateLoop_frame self c nb rest table u hnd'.1]
            simp
      · have hkk0 : ¬ k = k0 := by
          intro hh'
          exact hnd'.1 (hh' ▸ List.mem_map.mpr ⟨(k, e), hh, rfl⟩)
        by_cases hk0self : k0 = self
        · rw [updateLoop_cons_skip self c nb k0 d rest table u hk0self]
          exact ih table u hnd'.2 hh
        · cases hb0 : Cost.blt (c.add d.1) (curDist table k0) with
          | true =>
              rw [updateLoop_cons_write self c nb k0 d rest table u hk0self hb0,
                ih _ true hnd'.2 hh, curDist_setKey_ne table _ hkk0,
                lookupKey_setKey_ne table _ hkk0]
          | false =>
              rw [updateLoop_cons_keep self c nb k0 d rest table u hk0self hb0]
              exact ih table u hnd'.2 hh

/-- C1: `update_table_from_neighbor` implements strict-improvement
relaxation. For every advertised destination other than the receiver's
own id, with `candidate = costTo(sender) + advertised distance`
(`costTo` defaulting to `math.inf` for an unknown sender), the entry
becomes `(candidate, sender)` exactly when `candidate` is strictly less
than the current distance (an absent entry counting as `math.inf`, ties
never updating); destinations outside the advertisement keep their
entries; and the returned flag is `true` iff at least one entry was
replaced. -/
theorem update_table_strict_improvement (r : Router α) (nb : α) (adv : Table α)
    (hnd : (adv.map Prod.fst).Nodup) :
    (∀ k e, (k, e) ∈ adv → ¬ k = r.router_id →
        lookupKey (r.update_table_from_neighbor nb adv).1.routing_table k =
          (if Cost.blt ((r.costTo nb).add e.1) (curDist r.routing_table k)
           then some ((r.costTo nb).add e.1, some nb)
           else lookupKey r.routing_table k)) ∧
    (∀ k, k ∉ adv.map Prod.fst →
        lookupKey (r.update_table_from_neighbor nb adv).1.routing_table k =
          lookupKey r.routing_table k) ∧
    ((r.update_table_from_neighbor nb adv).2 = true ↔
        ∃ p ∈ adv, ¬ p.1 = r.router_id ∧
          Cost.blt ((r.costTo nb).add p.2.1) (curDist r.routing_table p.1) = true) := by
  refine ⟨?_, ?_, ?_⟩
  · intro k e hmem hk
    rw [update_routing_table]
    exact updateLoop_lookup_mem r.router_id (r.costTo nb) nb adv r.routing_table
      false hnd hmem hk
  · intro k hk
    rw [update_routing_table]
    exact updateLoop_frame r.router_id (r.costTo nb) nb adv r.routing_table false hk
  · rw [update_flag, updateLoop_flag]
    simp [List.any_eq_true, Bool.and_eq_true]

end ClaimOne

/-!
## C2: the split-horizon advertisement filter
-/

section ClaimTwo

variable {α : Type} [DecidableEq α]

theorem filterTable_eq_filter (n : α) (t : Table α) :
    Router.filterTable n t = t.filter (fun e => !(decide (e.2.2 = some n))) := by
  induction t with
  | nil => rfl
  | cons p rest ih =>
      obtain ⟨k, e⟩ := p
      by_cases h : e.2 = some n
      · simp [Router.filterTable, h, List.filter_cons, ih]
      · simp [Router.filterTable, h, List.filter_cons, ih]

/-- C2: `get_filtered_routing_table` implements split horizon: the
advertisement for neighbor `n` is exactly the routing table with every
entry whose next hop is `n` removed; it contains no entry whose next hop
is `n`; and it keeps every entry whose next hop is `None` (the
self-entry in particular). The operation is a pure function of the
router and leaves it unchanged by construction. -/
theorem split_horizon_filter (r : Router α) (n : α) :
    (r.get_filtered_routing_table n =
        r.routing_table.filter (fun e => !(decide (e.2.2 = some n)))) ∧
    (∀ e ∈ r.get_filtered_routing_table n, ¬ e.2.2 = some n) ∧
    (∀ e ∈ r.routing_table, e.2.2 = none →
        e ∈ r.get_filtered_routing_table n) := by
  refine ⟨filterTable_eq_filter n r.routing_table, ?_, ?_⟩
  · intro e he
    rw [Router.get_filtered_routing_table, filterTable_eq_filter] at he
    have := (List.mem_filter.mp he).2
    simpa using this
  · intro e he hnone
    rw [Router.get_filtered_routing_table, filterTable_eq_filter]
    refine List.mem_filter.mpr ⟨he, ?_⟩
    simp [hnone]

end ClaimTwo

/-!
## C3: the self entry is never overwritten
-/

section ClaimThree

variable {α : Type} [DecidableEq α]

/-- C3: in every router state reachable by construction, merges and
link failures, the entry for the router's own id is exactly `(0, None)`,
and `get_distance` of the own id is 0. -/
theorem self_entry_invariant (r : Router α) (h : Reachable r) :
    lookupKey r.routing_table r.router_id = some (Cost.fin 0, none) ∧
    r.get_distance r.router_id = Cost.fin 0 := by
  have main : lookupKey r.routing_table r.router_id = some (Cost.fin 0, none) := by
    induction h with
    | init id nbrs => simp [lookupKey]
    | update r nb t hr ih =>
        rw [update_routing_table, update_router_id,
          updateLoop_self_lookup r.router_id (r.costTo nb) nb t r.routing_table false]
        exact ih
    | fail r n hr ih =>
        rw [failLink_routing_table, failLink_router_id]
        exact ih
  exact ⟨main, by simp [Router.get_distance, curDist, main]⟩

end ClaimThree

/-!
## C10: advertisements over an unreachable or unknown link are ignored
-/

section ClaimTen

variable {α : Type} [DecidableEq α]

theorem updateLoop_inf (self : α) (nb : α) (adv table : Table α) (u : Bool) :
    Router.updateLoop self Cost.inf nb adv table u = (table, u) := by
  induction adv generalizing table u with
  | nil => rfl
  | cons p rest ih =>
      obtain ⟨k, d⟩ := p
      by_cases hk : k = self
      · rw [updateLoop_cons_skip self Cost.inf nb k d rest table u hk]
        exact ih table u
      · have hb : Cost.blt (Cost.inf.add d.1) (curDist table k) = false := by
          rw [Cost.add_inf_left, Cost.blt_inf_left]
        rw [updateLoop_cons_keep self Cost.inf nb k d rest table u hk hb]
        exact ih table u

/-- C10 (implicit): when the recorded link cost to the sender is
`math.inf`, or the sender is not in the neighbor map at all, every
candidate is `math.inf` and never a strict improvement, so the merge
returns `False` and leaves the router completely unchanged. -/
theorem unreachable_link_ignores_adverts (r : Router α) (nb : α) (t : Table α)
    (h : lookupKey r.neighbors nb = some Cost.inf ∨
         lookupKey r.neighbors nb = none) :
    r.update_table_from_neighbor nb t = (r, false) := by
  have hc : r.costTo nb = Cost.inf := by
    rcases h with h | h <;> simp [Router.costTo, h]
  simp [Router.update_table_from_neighbor, hc, updateLoop_inf]

end ClaimTen

/-!
## C4 and C5: the concrete triangle scenarios
-/

/-- C5: the no-failure triangle run converges (its final roster is a
fixed point of the exchange round) with exactly the claimed distances
and next hops. -/
theorem triangle_convergence :
    noFailureRun = some triFinal ∧
    runRound triFinal = some (triFinal, 0) ∧
    finalEntry noFailureRun 1 2 = some (Cost.fin 2, some 2) ∧
    finalEntry noFailureRun 1 3 = some (Cost.fin 3, some 2) ∧
    finalEntry noFailureRun 2 3 = some (Cost.fin 1, some 3) ∧
    finalEntry noFailureRun 2 1 = some (Cost.fin 2, some 1) ∧
    finalEntry noFailureRun 3 1 = some (Cost.fin 3, some 2) ∧
    finalEntry noFailureRun 3 2 = some (Cost.fin 1, some 2) := by
  decide

/-- C4 counterexample: in the failure run configured by `main`, router
1's final entry for destination 2 is the stale `(2, via 2)`, not the
claimed rebalanced `(6, via 3)`. -/
theorem link_failure_no_rebalance :
    finalEntry failureRun 1 2 = some (Cost.fin 2, some 2) ∧
    ¬ finalEntry failureRun 1 2 = some (Cost.fin 6, some 3) := by
  decide

/-- C4 amended: after the failure at round 3 the run reaches a fixed
point in which router 1's entry for destination 2 keeps its stale
pre-failure value `(2, via 2)`: the only remaining candidate (cost 6 via
router 3) is never strictly smaller than the stale 2, so the entry is
neither rebalanced nor set to `math.inf`. -/
theorem link_failure_stale_route :
    failureRun = some triFailFinal ∧
    finalEntry failureRun 1 2 = some (Cost.fin 2, some 2) ∧
    runRound triFailFinal = some (triFailFinal, 0) := by
  decide

/-!
## Unfolding equations for the merge phase and generic `Forall₂` helpers
-/

section MergePhaseLemmas

variable {α : Type} [DecidableEq α]

theorem runRound_eq (rs : List (Router α)) :
    runRound rs = mergePhase (buildSnapshots rs) (deliveryPairs rs) rs 0 := rfl

theorem mergePhase_cons_noneSnap (snap : List (α × List (α × Table α)))
    (sender nbr : α) (rest : List (α × α)) (rs : List (Router α)) (cnt : ℕ)
    (hs : lookupKey snap sender = none) :
    mergePhase snap ((sender, nbr) :: rest) rs cnt = none := by
  simp [mergePhase, hs]

theorem mergePhase_cons_noneInner (snap : List (α × List (α × Table α)))
    (sender nbr : α) (rest : List (α × α)) (rs : List (Router α)) (cnt : ℕ)
    (inner : List (α × Table α)) (hs : lookupKey snap sender = some inner)
    (hi : lookupKey inner nbr = none) :
    mergePhase snap ((sender, nbr) :: rest) rs cnt = none := by
  simp [mergePhase, hs, hi]

theorem mergePhase_cons_noneDeliver (snap : List (α × List (α × Table α)))
    (sender nbr : α) (rest : List (α × α)) (rs : List (Router α)) (cnt : ℕ)
    (inner : List (α × Table α)) (t : Table α)
    (hs : lookupKey snap sender = some inner) (hi : lookupKey inner nbr = some t)
    (hd : deliver sender nbr t rs = none) :
    mergePhase snap ((sender, nbr) :: rest) rs cnt = none := by
  simp [mergePhase, hs, hi, hd]

theorem mergePhase_cons_some (snap : List (α × List (α × Table α)))
    (sender nbr : α) (rest : List (α × α)) (rs : List (Router α)) (cnt : ℕ)
    (inner : List (α × Table α)) (t : Table α) (rs1 : List (Router α)) (u : Bool)
    (hs : lookupKey snap sender = some inner) (hi : lookupKey inner nbr = some t)
    (hd : deliver sender nbr t rs = some (rs1, u)) :
    mergePhase snap ((sender, nbr) :: rest) rs cnt =
      mergePhase snap rest rs1 (cnt + (if u then 1 else 0)) := by
  simp [mergePhase, hs, hi, hd]

theorem forall₂_comp {β₁ β₂ β₃ : Type} {R : β₁ → β₂ → Prop} {S : β₂ → β₃ → Prop}
    {T : β₁ → β₃ → Prop} (hc : ∀ a b c, R a b → S b c → T a c) :
    ∀ {l1 : List β₁} {l2 : List β₂} {l3 : List β₃},
      List.Forall₂ R l1 l2 → List.Forall₂ S l2 l3 → List.Forall₂ T l1 l3 := by
  intro l1 l2 l3 h1 h2
  induction h1 generalizing l3 with
  | nil =>
      cases h2
      exact List.Forall₂.nil
  | cons hab h ih =>
      cases h2 with
      | cons hbc h' => exact List.Forall₂.cons (hc _ _ _ hab hbc) (ih h')

end MergePhaseLemmas

/-!
## C6: distances never increase across a round
-/

section ClaimSix

variable {α : Type} [DecidableEq α]

theorem update_dist_le (r : Router α) (nb : α) (t : Table α) (dest : α) :
    Cost.ble ((r.update_table_from_neighbor nb t).1.get_distance dest)
      (r.get_distance dest) = true := by
  have h : (r.update_table_from_neighbor nb t).1.get_distance dest =
      (candsOfAdv r.router_id (r.costTo nb) t dest).foldl Cost.min
        (curDist r.routing_table dest) :=
    updateLoop_curDist r.router_id (r.costTo nb) nb t r.routing_table false dest
  rw [h]
  exact Cost.foldl_min_ble_init _ _

theorem deliver_dist_le (s n : α) (t : Table α) (rs rs' : List (Router α)) (u : Bool)
    (h : deliver s n t rs = some (rs', u)) :
    List.Forall₂ (fun a b => ∀ dest,
      Cost.ble (a.get_distance dest) (b.get_distance dest) = true) rs' rs := by
  induction rs generalizing rs' u with
  | nil => cases h
  | cons r rest ih =>
      by_cases hr : r.router_id = n
      · simp only [deliver, if_pos hr] at h
        cases h
        exact List.Forall₂.cons (fun dest => update_dist_le r s t dest)
          (List.forall₂_same.mpr (fun x _ dest => Cost.ble_refl _))
      · simp only [deliver, if_neg hr] at h
        cases hd : deliver s n t rest with
        | none => rw [hd] at h; cases h
        | some pr =>
            obtain ⟨rest', u'⟩ := pr
            rw [hd] at h
            cases h
            exact List.Forall₂.cons (fun dest => Cost.ble_refl _) (ih _ _ hd)

theorem mergePhase_dist_le (snap : List (α × List (α × Table α)))
    (pairs : List (α × α)) (rs : List (Router α)) (cnt : ℕ)
    (rs' : List (Router α)) (cnt' : ℕ)
    (h : mergePhase snap pairs rs cnt = some (rs', cnt')) :
    List.Forall₂ (fun a b => ∀ dest,
      Cost.ble (a.get_distance dest) (b.get_distance dest) = true) rs' rs := by
  induction pairs generalizing rs cnt with
  | nil =>
      simp only [mergePhase, Option.some.injEq, Prod.mk.injEq] at h
      rw [← h.1]
      exact List.forall₂_same.mpr (fun x _ dest => Cost.ble_refl _)
  | cons p rest ih =>
      obtain ⟨sender, nbr⟩ := p
      cases hs : lookupKey snap sender with
      | none => rw [mergePhase_cons_noneSnap snap sender nbr rest rs cnt hs] at h; cases h
      | some inner =>
          cases hi : lookupKey inner nbr with
          | none =>
              rw [mergePhase_cons_noneInner snap sender nbr rest rs cnt inner hs hi] at h
              cases h
          | some t =>
              cases hd : deliver sender nbr t rs with
              | none =>
                  rw [mergePhase_cons_noneDeliver snap sender nbr rest rs cnt
                    inner t hs hi hd] at h
                  cases h
              | some pr =>
                  obtain ⟨rs1, u⟩ := pr
                  rw [mergePhase_cons_some snap sender nbr rest rs cnt
                    inner t rs1 u hs hi hd] at h
                  exact forall₂_comp
                    (fun a b c hab hbc dest => Cost.ble_trans (hab dest) (hbc dest))
                    (ih rs1 _ h) (deliver_dist_le sender nbr t rs rs1 u hd)

theorem mapFirst_tables (i : α) (f : Router α → Router α)
    (hf : ∀ r, (f r).routing_table = r.routing_table) (rs : List (Router α)) :
    List.Forall₂ (fun a b => a.routing_table = b.routing_table)
      (mapFirst i f rs) rs := by
  induction rs with
  | nil => exact List.Forall₂.nil
  | cons r rest ih =>
      by_cases hr : r.router_id = i
      · simp only [mapFirst, if_pos hr]
        exact List.Forall₂.cons (hf r) (List.forall₂_same.mpr (fun x _ => rfl))
      · simp only [mapFirst, if_neg hr]
        exact List.Forall₂.cons rfl ih

theorem simulate_link_failure_tables (rs : List (Router α)) (fp : α × α) :
    List.Forall₂ (fun a b => a.routing_table = b.routing_table)
      (simulate_link_failure rs fp) rs := by
  cases h1 : findRouter rs fp.1 with
  | none =>
      cases h2 : findRouter rs fp.2 with
      | none =>
          simp only [simulate_link_failure, h1, h2]
          exact List.forall₂_same.mpr (fun x _ => rfl)
      | some b =>
          simp only [simulate_link_failure, h1, h2]
          exact List.forall₂_same.mpr (fun x _ => rfl)
  | some a =>
      cases h2 : findRouter rs fp.2 with
      | none =>
          simp only [simulate_link_failure, h1, h2]
          exact List.forall₂_same.mpr (fun x _ => rfl)
      | some b =>
          simp only [simulate_link_failure, h1, h2]
          exact forall₂_comp (fun x y z hxy hyz => hxy.trans hyz)
            (mapFirst_tables fp.2 _ (fun r => failLink_routing_table r fp.1) _)
            (mapFirst_tables fp.1 _ (fun r => failLink_routing_table r fp.2) rs)

/-- C6: across one exchange round — with or without the scheduled link
failure applied first — no router's recorded distance to any
destination increases: the strict-improvement rule only ever lowers
recorded distances, and the failure event touches link costs, never the
tables, so the code satisfies the claim's "never increases except after
a link-cost increase" unconditionally. -/
theorem distances_never_increase (rs : List (Router α)) (fp : α × α) (doFail : Bool)
    (rs' : List (Router α)) (n : ℕ)
    (h : runRound (if doFail then simulate_link_failure rs fp else rs) =
      some (rs', n)) :
    List.Forall₂ (fun a b => ∀ dest,
      Cost.ble (a.get_distance dest) (b.get_distance dest) = true) rs' rs := by
  have h1 := mergePhase_dist_le _ _ _ _ _ _ ((runRound_eq _).symm.trans h)
  have h2 : List.Forall₂ (fun a b => a.routing_table = b.routing_table)
      (if doFail then simulate_link_failure rs fp else rs) rs := by
    cases doFail with
    | false =>
        simp only [Bool.false_eq_true, if_false]
        exact List.forall₂_same.mpr (fun x _ => rfl)
    | true =>
        simp only [if_true]
        exact simulate_link_failure_tables rs fp
  refine forall₂_comp (fun a b c hab hbc dest => ?_) h1 h2
  have hd : b.get_distance dest = c.get_distance dest := by
    simp [Router.get_distance, hbc]
  rw [← hd]
  exact hab dest

end ClaimSix

/-!
## C7: a zero-update round is a fixed point
-/

section ClaimSeven

variable {α : Type} [DecidableEq α]

theorem update_false_unchanged (r : Router α) (nb : α) (t : Table α)
    (h : (r.update_table_from_neighbor nb t).2 = false) :
    (r.update_table_from_neighbor nb t).1 = r := by
  have h2 := updateLoop_false r.router_id (r.costTo nb) nb t r.routing_table false h
  show ({ r with routing_table :=
    (Router.updateLoop r.router_id (r.costTo nb) nb t r.routing_table false).1 } :
      Router α) = r
  rw [h2.1]

theorem deliver_false (s n : α) (t : Table α) (rs rs' : List (Router α))
    (h : deliver s n t rs = some (rs', false)) : rs' = rs := by
  induction rs generalizing rs' with
  | nil => cases h
  | cons r rest ih =>
      by_cases hr : r.router_id = n
      · simp only [deliver, if_pos hr, Option.some.injEq, Prod.mk.injEq] at h
        obtain ⟨h1, h2⟩ := h
        rw [← h1, update_false_unchanged r s t h2]
      · simp only [deliver, if_neg hr] at h
        cases hd : deliver s n t rest with
        | none => rw [hd] at h; cases h
        | some pr =>
            obtain ⟨rest', u⟩ := pr
            rw [hd] at h
            simp only [Option.some.injEq, Prod.mk.injEq] at h
            obtain ⟨h1, h2⟩ := h
            have hrest : rest' = rest := ih rest' (by rw [hd, h2])
            rw [← h1, hrest]

theorem mergePhase_zero (snap : List (α × List (α × Table α)))
    (pairs : List (α × α)) (rs : List (Router α)) (cnt : ℕ)
    (rs' : List (Router α)) (h : mergePhase snap pairs rs cnt = some (rs', 0)) :
    rs' = rs ∧ cnt = 0 := by
  induction pairs generalizing rs cnt with
  | nil =>
      simp only [mergePhase, Option.some.injEq, Prod.mk.injEq] at h
      exact ⟨h.1.symm, h.2⟩
  | cons p rest ih =>
      obtain ⟨sender, nbr⟩ := p
      cases hs : lookupKey snap sender with
      | none => rw [mergePhase_cons_noneSnap snap sender nbr rest rs cnt hs] at h; cases h
      | some inner =>
          cases hi : lookupKey inner nbr with
          | none =>
              rw [mergePhase_cons_noneInner snap sender nbr rest rs cnt inner hs hi] at h
              cases h
          | some t =>
              cases hd : deliver sender nbr t rs with
              | none =>
                  rw [mergePhase_cons_noneDeliver snap sender nbr rest rs cnt
                    inner t hs hi hd] at h
                  cases h
              | some pr =>
                  obtain ⟨rs1, u⟩ := pr
                  rw [mergePhase_cons_some snap sender nbr rest rs cnt
                    inner t rs1 u hs hi hd] at h
                  obtain ⟨h1, h2⟩ := ih rs1 _ h
                  have hu : u = false := by
                    cases u
                    · rfl
                    · simp at h2
                  rw [hu] at hd
                  simp [hu] at h2
                  have hrs1 : rs1 = rs := deliver_false sender nbr t rs rs1 hd
                  exact ⟨h1.trans hrs1, h2⟩

/-- C7: if a full exchange round reports zero updates, the roster is
unchanged by that round, and running another round on the resulting
state again reports zero updates. -/
theorem convergence_idempotent (rs rs' : List (Router α))
    (h : runRound rs = some (rs', 0)) :
    rs' = rs ∧ runRound rs' = some (rs', 0) := by
  have h0 : rs' = rs :=
    (mergePhase_zero _ _ rs 0 rs' ((runRound_eq rs).symm.trans h)).1
  subst h0
  exact ⟨rfl, h⟩

end ClaimSeven

/-!
## C9: argument validation in `Router.__init__`
-/

theorem checkNeighbors_ok_iff (l : List (PyVal × PyVal)) :
    (∃ res, checkNeighbors l = Except.ok res) ↔
    ∀ p ∈ l, p.1.isIdType = true ∧
      ∃ c, p.2.asNumber = some c ∧ Cost.ble (Cost.fin 0) c = true := by
  induction l with
  | nil =>
      constructor
      · intro _ p hp
        cases hp
      · intro _
        exact ⟨[], rfl⟩
  | cons q rest ih =>
      obtain ⟨nid, cost⟩ := q
      by_cases hid : nid.isIdType = true
      · cases hnum : cost.asNumber with
        | none =>
            have hstep : checkNeighbors ((nid, cost) :: rest) =
                Except.error "Link cost must be a non-negative number." := by
              simp [checkNeighbors, hid, hnum]
            constructor
            · rintro ⟨res, hres⟩
              rw [hstep] at hres
              cases hres
            · intro hall
              obtain ⟨c, hc, _⟩ := (hall (nid, cost) (List.mem_cons_self _ _)).2
              rw [hnum] at hc
              cases hc
        | some c =>
            cases hble : Cost.ble (Cost.fin 0) c with
            | false =>
                have hstep : checkNeighbors ((nid, cost) :: rest) =
                    Except.error "Link cost must be a non-negative number." := by
                  simp [checkNeighbors, hid, hnum, hble]
                constructor
                · rintro ⟨res, hres⟩
                  rw [hstep] at hres
                  cases hres
                · intro hall
                  obtain ⟨c', hc', hb'⟩ := (hall (nid, cost) (List.mem_cons_self _ _)).2
                  rw [hnum] at hc'
                  cases hc'
                  rw [hble] at hb'
                  cases hb'
            | true =>
                cases hrec : checkNeighbors rest with
                | ok res' =>
                    have hstep : checkNeighbors ((nid, cost) :: rest) =
                        Except.ok ((nid, c) :: res') := by
                      simp [checkNeighbors, hid, hnum, hble, hrec]
                    constructor
                    · intro _
                      intro p hp
                      rcases List.mem_cons.mp hp with rfl | hp'
                      · exact ⟨hid, c, hnum, hble⟩
                      · exact ih.mp ⟨res', hrec⟩ p hp'
                    · intro _
                      exact ⟨(nid, c) :: res', hstep⟩
                | error e =>
                    have hstep : checkNeighbors ((nid, cost) :: rest) =
                        Except.error e := by
                      simp [checkNeighbors, hid, hnum, hble, hrec]
                    constructor
                    · rintro ⟨res, hres⟩
                      rw [hstep] at hres
                      cases hres
                    · intro hall
                      obtain ⟨res, hr⟩ :=
                        ih.mpr (fun p hp => hall p (List.mem_cons_of_mem _ hp))
                      rw [hrec] at hr
                      cases hr
      · have hstep : checkNeighbors ((nid, cost) :: rest) =
            Except.error "Neighbor IDs must be int or str." := by
          simp [checkNeighbors, hid]
        constructor
        · rintro ⟨res, hres⟩
          rw [hstep] at hres
          cases hres
        · intro hall
          exact absurd (hall (nid, cost) (List.mem_cons_self _ _)).1 hid

theorem checkNeighbors_ok_val (l : List (PyVal × PyVal)) (res : List (PyVal × Cost))
    (h : checkNeighbors l = Except.ok res) :
    List.Forall₂ (fun q p => q.1 = p.1 ∧ p.2.asNumber = some q.2) res l := by
  induction l generalizing res with
  | nil =>
      cases h
      exact List.Forall₂.nil
  | cons q rest ih =>
      obtain ⟨nid, cost⟩ := q
      by_cases hid : nid.isIdType = true
      · cases hnum : cost.asNumber with
        | none =>
            have hstep : checkNeighbors ((nid, cost) :: rest) =
                Except.error "Link cost must be a non-negative number." := by
              simp [checkNeighbors, hid, hnum]
            rw [hstep] at h
            cases h
        | some c =>
            cases hble : Cost.ble (Cost.fin 0) c with
            | false =>
                have hstep : checkNeighbors ((nid, cost) :: rest) =
                    Except.error "Link cost must be a non-negative number." := by
                  simp [checkNeighbors, hid, hnum, hble]
                rw [hstep] at h
                cases h
            | true =>
                cases hrec : checkNeighbors rest with
                | ok res' =>
                    have hstep : checkNeighbors ((nid, cost) :: rest) =
                        Except.ok ((nid, c) :: res') := by
                      simp [checkNeighbors, hid, hnum, hble, hrec]
                    rw [hstep] at h
                    cases h
                    exact List.Forall₂.cons ⟨rfl, hnum⟩ (ih res' hrec)
                | error e =>
                    have hstep : checkNeighbors ((nid, cost) :: rest) =
                        Except.error e := by
                      simp [checkNeighbors, hid, hnum, hble, hrec]
                    rw [hstep] at h
                    cases h
      · have hstep : checkNeighbors ((nid, cost) :: rest) =
            Except.error "Neighbor IDs must be int or str." := by
          simp [checkNeighbors, hid]
        rw [hstep] at h
        cases h

/-- C9: `Router.__init__` raises `ValueError` (modelled as
`Except.error`, surfacing immediately, constructing no router) exactly
when the id or a neighbor id is not an `int`/`str`, or a neighbor cost
is non-numeric or negative; on success the routing table is exactly the
single self entry `{id: (0, None)}` and the stored neighbor map carries
exactly the given costs. -/
theorem router_init_validation (id : PyVal) (nbrs : List (PyVal × PyVal)) :
    ((∃ e, Router.init id nbrs = Except.error e) ↔
      (¬ id.isIdType = true ∨ ∃ p ∈ nbrs,
        ¬ (p.1.isIdType = true ∧
           ∃ c, p.2.asNumber = some c ∧ Cost.ble (Cost.fin 0) c = true))) ∧
    (∀ r, Router.init id nbrs = Except.ok r →
      r.router_id = id ∧
      r.routing_table = [(id, (Cost.fin 0, none))] ∧
      List.Forall₂ (fun q p => q.1 = p.1 ∧ p.2.asNumber = some q.2)
        r.neighbors nbrs) := by
  by_cases hid : id.isIdType = true
  · cases hrec : checkNeighbors nbrs with
    | ok res =>
        have hinit : Router.init id nbrs =
            Except.ok ⟨id, res, [(id, (Cost.fin 0, none))]⟩ := by
          simp [Router.init, hid, hrec]
        constructor
        · constructor
          · rintro ⟨e, he⟩
            rw [hinit] at he
            cases he
          · rintro (h | ⟨p, hp, hviol⟩)
            · exact absurd hid h
            · exact absurd ((checkNeighbors_ok_iff nbrs).mp ⟨res, hrec⟩ p hp) hviol
        · intro r hr
          rw [hinit] at hr
          cases hr
          exact ⟨rfl, rfl, checkNeighbors_ok_val nbrs res hrec⟩
    | error e =>
        have hinit : Router.init id nbrs = Except.error e := by
          simp [Router.init, hid, hrec]
        constructor
        · constructor
          · intro _
            right
            have hno : ¬ ∀ p ∈ nbrs, p.1.isIdType = true ∧
                ∃ c, p.2.asNumber = some c ∧ Cost.ble (Cost.fin 0) c = true := by
              intro hall
              obtain ⟨res, hres⟩ := (checkNeighbors_ok_iff nbrs).mpr hall
              rw [hrec] at hres
              cases hres
            by_contra hcon
            apply hno
            intro p hp
            by_contra hvp
            exact hcon ⟨p, hp, hvp⟩
          · intro _
            exact ⟨e, hinit⟩
        · intro r hr
          rw [hinit] at hr
          cases hr
  · have hinit : Router.init id nbrs =
        Except.error "router_id must be int or str." := by
      simp [Router.init, hid]
    constructor
    · constructor
      · intro _
        exact Or.inl hid
      · intro _
        exact ⟨_, hinit⟩
    · intro r hr
      rw [hinit] at hr
      cases hr

/-!
## C8: snapshot resolution, delivery targeting, and the per-round
distance characterization
-/

section ClaimEight

variable {α : Type} [DecidableEq α]

theorem lookup_foldl_setKey_not_mem {γ : Type} (g : α → γ) (l : List (α × Cost))
    (acc : List (α × γ)) (k : α) (hk : k ∉ l.map Prod.fst) :
    lookupKey (l.foldl (fun a e => setKey a e.1 (g e.1)) acc) k = lookupKey acc k := by
  induction l generalizing acc with
  | nil => rfl
  | cons e t ih =>
      have h1 : ¬ k = e.1 ∧ k ∉ t.map Prod.fst := by
        constructor
        · intro hh
          exact hk (by simp [hh])
        · intro hh
          exact hk (by simp [hh])
      rw [List.foldl_cons, ih _ h1.2, lookupKey_setKey_ne acc _ h1.1]

theorem lookup_foldl_setKey_mem {γ : Type} (g : α → γ) (l : List (α × Cost))
    (acc : List (α × γ)) (k : α) (hk : k ∈ l.map Prod.fst) :
    lookupKey (l.foldl (fun a e => setKey a e.1 (g e.1)) acc) k = some (g k) := by
  induction l generalizing acc with
  | nil => cases hk
  | cons e t ih =>
      by_cases hmem : k ∈ t.map Prod.fst
      · rw [List.foldl_cons]
        exact ih _ hmem
      · have hk' : k = e.1 ∨ k ∈ t.map Prod.fst := by simpa using hk
        have hke : k = e.1 := by
          rcases hk' with h | h
          · exact h
          · exact absurd h hmem
        rw [List.foldl_cons, lookup_foldl_setKey_not_mem g t _ k hmem, hke,
          lookupKey_setKey_self]

theorem lookup_foldl_routers_not_mem {γ : Type} (f : Router α → γ)
    (rs : List (Router α)) (acc : List (α × γ)) (k : α)
    (hk : ∀ r ∈ rs, ¬ r.router_id = k) :
    lookupKey (rs.foldl (fun a x => setKey a x.router_id (f x)) acc) k =
      lookupKey acc k := by
  induction rs generalizing acc with
  | nil => rfl
  | cons x t ih =>
      rw [List.foldl_cons, ih _ (fun r hr => hk r (List.mem_cons_of_mem x hr)),
        lookupKey_setKey_ne acc _ (fun hh => hk x (List.mem_cons_self x t) hh.symm)]

theorem lookup_foldl_routers_mem {γ : Type} (f : Router α → γ)
    (rs : List (Router α)) (acc : List (α × γ)) (r : Router α) (hr : r ∈ rs)
    (hnd : (rs.map Router.router_id).Nodup) :
    lookupKey (rs.foldl (fun a x => setKey a x.router_id (f x)) acc) r.router_id =
      some (f r) := by
  induction rs generalizing acc with
  | nil => cases hr
  | cons x t ih =>
      have hnd' : x.router_id ∉ t.map Router.router_id ∧
          (t.map Router.router_id).Nodup := List.nodup_cons.mp (by simpa using hnd)
      rcases List.mem_cons.mp hr with rfl | hr'
      · rw [List.foldl_cons,
          lookup_foldl_routers_not_mem f t _ _
            (fun y hy hh => hnd'.1 (List.mem_map.mpr ⟨y, hy, hh⟩)),
          lookupKey_setKey_self]
      · rw [List.foldl_cons]
        exact ih _ hr' hnd'.2

theorem buildSnapshots_lookup (rs : List (Router α)) (s : Router α)
    (hs : s ∈ rs) (hnd : (rs.map Router.router_id).Nodup) :
    lookupKey (buildSnapshots rs) s.router_id =
      some (s.neighbors.foldl
        (fun inner e => setKey inner e.1 (s.get_filtered_routing_table e.1)) []) :=
  lookup_foldl_routers_mem _ rs [] s hs hnd

theorem snapshot_inner_lookup (s : Router α) (n : α)
    (hn : n ∈ s.neighbors.map Prod.fst) :
    lookupKey (s.neighbors.foldl
      (fun inner e => setKey inner e.1 (s.get_filtered_routing_table e.1)) []) n =
      some (s.get_filtered_routing_table n) :=
  lookup_foldl_setKey_mem _ s.neighbors [] n hn

theorem deliver_spec (s n : α) (t : Table α) (rs rs' : List (Router α)) (u : Bool)
    (hnd : (rs.map Router.router_id).Nodup)
    (h : deliver s n t rs = some (rs', u)) :
    List.Forall₂ (fun y x =>
      (x.router_id = n → y = (x.update_table_from_neighbor s t).1) ∧
      (¬ x.router_id = n → y = x)) rs' rs := by
  induction rs generalizing rs' u with
  | nil => cases h
  | cons r rest ih =>
      have hnd' : r.router_id ∉ rest.map Router.router_id ∧
          (rest.map Router.router_id).Nodup := List.nodup_cons.mp (by simpa using hnd)
      by_cases hr : r.router_id = n
      · simp only [deliver, if_pos hr] at h
        cases h
        refine List.Forall₂.cons ⟨fun _ => rfl, fun hc => absurd hr hc⟩ ?_
        refine List.forall₂_same.mpr (fun x hx => ⟨fun hxc => ?_, fun _ => rfl⟩)
        exact absurd (List.mem_map.mpr ⟨x, hx, hxc.trans hr.symm⟩) hnd'.1
      · simp only [deliver, if_neg hr] at h
        cases hd : deliver s n t rest with
        | none => rw [hd] at h; cases h
        | some pr =>
            obtain ⟨rest', u'⟩ := pr
            rw [hd] at h
            cases h
            exact List.Forall₂.cons ⟨fun hc => absurd hc hr, fun _ => rfl⟩
              (ih _ _ hnd'.2 hd)

theorem forall₂_router_id_map {l1 l2 : List (Router α)}
    (h : List.Forall₂ (fun y x =>
      y.router_id = x.router_id ∧ y.neighbors = x.neighbors) l1 l2) :
    l1.map Router.router_id = l2.map Router.router_id := by
  induction h with
  | nil => rfl
  | cons hab hrest ih => simp [hab.1, ih]

theorem pairCands_congr (snap : List (α × List (α × Table α)))
    {y x : Router α} (L : List (α × α)) (dest : α)
    (hid : y.router_id = x.router_id) (hnb : y.neighbors = x.neighbors) :
    pairCands snap y L dest = pairCands snap x L dest := by
  have hc : ∀ a, y.costTo a = x.costTo a := fun a => by
    simp [Router.costTo, hnb]
  have hbody : pairCandBody snap y dest = pairCandBody snap x dest := by
    funext p
    simp only [pairCandBody, hid, hc]
  rw [pairCands, pairCands, hbody]

theorem mergePhase_dists (snap : List (α × List (α × Table α)))
    (pairs : List (α × α)) (rs : List (Router α)) (cnt : ℕ)
    (rs' : List (Router α)) (cnt' : ℕ)
    (hnd : (rs.map Router.router_id).Nodup)
    (h : mergePhase snap pairs rs cnt = some (rs', cnt')) :
    List.Forall₂ (fun o x => o.router_id = x.router_id ∧
      o.neighbors = x.neighbors ∧
      ∀ dest, o.get_distance dest =
        (pairCands snap x pairs dest).foldl Cost.min (x.get_distance dest)) rs' rs := by
  induction pairs generalizing rs cnt with
  | nil =>
      simp only [mergePhase, Option.some.injEq, Prod.mk.injEq] at h
      rw [← h.1]
      exact List.forall₂_same.mpr (fun x _ => ⟨rfl, rfl, fun dest => rfl⟩)
  | cons p rest ih =>
      obtain ⟨sender, nbr⟩ := p
      cases hs : lookupKey snap sender with
      | none => rw [mergePhase_cons_noneSnap snap sender nbr rest rs cnt hs] at h; cases h
      | some inner =>
          cases hi : lookupKey inner nbr with
          | none =>
              rw [mergePhase_cons_noneInner snap sender nbr rest rs cnt inner hs hi] at h
              cases h
          | some t =>
              cases hd : deliver sender nbr t rs with
              | none =>
                  rw [mergePhase_cons_noneDeliver snap sender nbr rest rs cnt
                    inner t hs hi hd] at h
                  cases h
              | some pr =>
                  obtain ⟨rs1, u⟩ := pr
                  rw [mergePhase_cons_some snap sender nbr rest rs cnt
                    inner t rs1 u hs hi hd] at h
                  have hstep := deliver_spec sender nbr t rs rs1 u hnd hd
                  have hpres : List.Forall₂ (fun y x =>
                      y.router_id = x.router_id ∧ y.neighbors = x.neighbors) rs1 rs := by
                    refine List.Forall₂.imp ?_ hstep
                    intro y x hyx
                    by_cases hxc : x.router_id = nbr
                    · rw [hyx.1 hxc]
                      exact ⟨update_router_id x sender t, update_neighbors x sender t⟩
                    · rw [hyx.2 hxc]
                      exact ⟨rfl, rfl⟩
                  have hnd1 : (rs1.map Router.router_id).Nodup := by
                    rw [forall₂_router_id_map hpres]
                    exact hnd
                  have hrec := ih rs1 _ hnd1 h
                  refine forall₂_comp ?_ hrec hstep
                  intro o y x hoy hyx
                  by_cases hxc : x.router_id = nbr
                  · subst hxc
                    have hy : y = (x.update_table_from_neighbor sender t).1 := hyx.1 rfl
                    rw [hy] at hoy
                    refine ⟨hoy.1.trans (update_router_id x sender t),
                      hoy.2.1.trans (update_neighbors x sender t), fun dest => ?_⟩
                    rw [hoy.2.2 dest,
                      pairCands_congr snap rest dest (update_router_id x sender t)
                        (update_neighbors x sender t)]
                    have hyd : (x.update_table_from_neighbor sender t).1.get_distance dest =
                        (candsOfAdv x.router_id (x.costTo sender) t dest).foldl Cost.min
                          (x.get_distance dest) :=
                      updateLoop_curDist x.router_id (x.costTo sender) sender t
                        x.routing_table false dest
                    rw [hyd, ← List.foldl_append]
                    have hhead : pairCands snap x ((sender, x.router_id) :: rest) dest =
                        candsOfAdv x.router_id (x.costTo sender) t dest ++
                          pairCands snap x rest dest := by
                      rw [pairCands, List.flatMap_cons]
                      have hb : pairCandBody snap x dest (sender, x.router_id) =
                          candsOfAdv x.router_id (x.costTo sender) t dest := by
                        simp [pairCandBody, hs, hi]
                      rw [hb]
                      rfl
                    rw [hhead]
                  · have hy : y = x := hyx.2 hxc
                    rw [hy] at hoy
                    refine ⟨hoy.1, hoy.2.1, fun dest => ?_⟩
                    rw [hoy.2.2 dest]
                    have hhead : pairCands snap x ((sender, nbr) :: rest) dest =
                        pairCands snap x rest dest := by
                      rw [pairCands, List.flatMap_cons]
                      have hb : pairCandBody snap x dest (sender, nbr) = [] := by
                        have hcond : ¬ nbr = x.router_id := fun hh => hxc hh.symm
                        simp only [pairCandBody]
                        rw [if_neg hcond]
                      rw [hb]
                      rfl
                    rw [hhead]

theorem runRound_dists (rs rs' : List (Router α)) (n : ℕ)
    (hnd : (rs.map Router.router_id).Nodup) (h : runRound rs = some (rs', n)) :
    List.Forall₂ (fun o x => o.router_id = x.router_id ∧
      o.neighbors = x.neighbors ∧
      ∀ dest, o.get_distance dest =
        (pairCands (buildSnapshots rs) x (deliveryPairs rs) dest).foldl Cost.min
          (x.get_distance dest)) rs' rs :=
  mergePhase_dists _ _ rs 0 rs' n hnd ((runRound_eq rs).symm.trans h)

theorem mem_pairCands_iff (rs : List (Router α)) (x : Router α) (dest : α) (c : Cost)
    (hnd : (rs.map Router.router_id).Nodup) :
    c ∈ pairCands (buildSnapshots rs) x (deliveryPairs rs) dest ↔
      ∃ s ∈ rs, ∃ e ∈ s.neighbors, e.1 = x.router_id ∧ c ∈ advCands x s dest := by
  constructor
  · intro hc
    obtain ⟨p, hp, hcp⟩ := List.mem_flatMap.mp hc
    obtain ⟨s, hsrs, hps⟩ := List.mem_flatMap.mp hp
    obtain ⟨e, hes, hpe⟩ := List.mem_map.mp hps
    subst hpe
    by_cases hex : e.1 = x.router_id
    · have hb : pairCandBody (buildSnapshots rs) x dest (s.router_id, e.1) =
          advCands x s dest := by
        have h1 := buildSnapshots_lookup rs s hsrs hnd
        have h2 := snapshot_inner_lookup s e.1 (List.mem_map.mpr ⟨e, hes, rfl⟩)
        rw [hex] at h2
        simp [pairCandBody, hex, h1, h2, advCands]
      rw [hb] at hcp
      exact ⟨s, hsrs, e, hes, hex, hcp⟩
    · have hb : pairCandBody (buildSnapshots rs) x dest (s.router_id, e.1) = [] := by
        simp [pairCandBody, hex]
      rw [hb] at hcp
      cases hcp
  · rintro ⟨s, hsrs, e, hes, hex, hc⟩
    refine List.mem_flatMap.mpr ⟨(s.router_id, e.1), ?_, ?_⟩
    · exact List.mem_flatMap.mpr ⟨s, hsrs, List.mem_map.mpr ⟨e, hes, rfl⟩⟩
    · have hb : pairCandBody (buildSnapshots rs) x dest (s.router_id, e.1) =
          advCands x s dest := by
        have h1 := buildSnapshots_lookup rs s hsrs hnd
        have h2 := snapshot_inner_lookup s e.1 (List.mem_map.mpr ⟨e, hes, rfl⟩)
        rw [hex] at h2
        simp [pairCandBody, hex, h1, h2, advCands]
      rw [hb]
      exact hc

theorem findRouter_forall₂ {R : Router α → Router α → Prop}
    (hR : ∀ a b, R a b → a.router_id = b.router_id)
    {l1 l2 : List (Router α)} (h : List.Forall₂ R l1 l2) (i : α) :
    (findRouter l1 i = none ∧ findRouter l2 i = none) ∨
    ∃ a b, findRouter l1 i = some a ∧ findRouter l2 i = some b ∧ R a b := by
  induction h with
  | nil => exact Or.inl ⟨rfl, rfl⟩
  | @cons a b t1 t2 hab hrest ih =>
      by_cases hai : a.router_id = i
      · refine Or.inr ⟨a, b, ?_, ?_, hab⟩
        · simp [findRouter, hai]
        · simp [findRouter, (hR a b hab) ▸ hai]
      · have hbi : ¬ b.router_id = i := fun hh => hai ((hR a b hab).trans hh)
        rcases ih with ⟨h1, h2⟩ | ⟨a', b', h1, h2, hab'⟩
        · exact Or.inl ⟨by simp [findRouter, hai, h1], by simp [findRouter, hbi, h2]⟩
        · exact Or.inr ⟨a', b', by simp [findRouter, hai, h1],
            by simp [findRouter, hbi, h2], hab'⟩

theorem findRouter_none_iff (l : List (Router α)) (i : α) :
    findRouter l i = none ↔ ∀ r ∈ l, ¬ r.router_id = i := by
  induction l with
  | nil => simp [findRouter]
  | cons r rest ih =>
      by_cases hr : r.router_id = i
      · simp [findRouter, hr]
      · simp [findRouter, hr, ih]

theorem findRouter_some_mem {l : List (Router α)} {i : α} {r : Router α}
    (h : findRouter l i = some r) : r ∈ l ∧ r.router_id = i := by
  induction l with
  | nil => cases h
  | cons x rest ih =>
      by_cases hx : x.router_id = i
      · simp only [findRouter, if_pos hx, Option.some.injEq] at h
        exact ⟨h ▸ List.mem_cons_self x rest, h ▸ hx⟩
      · simp only [findRouter, if_neg hx] at h
        obtain ⟨hmem, hid⟩ := ih h
        exact ⟨List.mem_cons_of_mem x hmem, hid⟩

theorem findRouter_mem_some (l : List (Router α)) (x : Router α) (hx : x ∈ l)
    (hnd : (l.map Router.router_id).Nodup) :
    findRouter l x.router_id = some x := by
  induction l with
  | nil => cases hx
  | cons r rest ih =>
      have hnd' : r.router_id ∉ rest.map Router.router_id ∧
          (rest.map Router.router_id).Nodup := List.nodup_cons.mp (by simpa using hnd)
      rcases List.mem_cons.mp hx with rfl | hx'
      · simp [findRouter]
      · have hr : ¬ r.router_id = x.router_id := by
          intro hh
          exact hnd'.1 (hh ▸ List.mem_map.mpr ⟨x, hx', rfl⟩)
        simp only [findRouter, if_neg hr]
        exact ih hx' hnd'.2

/-- C8 amended: from a common pre-round state, two arbitrary roster
orders produce the same post-round distance for every router and
destination: the merged distance for each destination is the minimum of
the previous distance and all candidates over the snapshotted
advertisements, which is order-independent; only the recorded next hop
may depend on the order, when two senders offer equal-cost candidates. -/
theorem round_distances_order_independent (rs1 rs2 p1 p2 : List (Router α))
    (n1 n2 : ℕ) (hperm : rs1.Perm rs2)
    (hnd : (rs1.map Router.router_id).Nodup)
    (h1 : runRound rs1 = some (p1, n1)) (h2 : runRound rs2 = some (p2, n2))
    (i : α) (dest : α) :
    (findRouter p1 i).map (fun r => r.get_distance dest) =
      (findRouter p2 i).map (fun r => r.get_distance dest) := by
  have hnd2 : (rs2.map Router.router_id).Nodup :=
    ((hperm.map Router.router_id).nodup_iff).mp hnd
  have c1 := runRound_dists rs1 p1 n1 hnd h1
  have c2 := runRound_dists rs2 p2 n2 hnd2 h2
  rcases findRouter_forall₂ (fun a b hab => hab.1) c1 i with
    ⟨ha1, hb1⟩ | ⟨o1, x1, ho1, hx1, hR1⟩
  · have hb2 : findRouter rs2 i = none := by
      rw [findRouter_none_iff] at hb1 ⊢
      intro r hr
      exact hb1 r (hperm.mem_iff.mpr hr)
    rcases findRouter_forall₂ (fun a b hab => hab.1) c2 i with
      ⟨ha2, _⟩ | ⟨o2, x2, _, hx2, _⟩
    · rw [ha1, ha2]
    · rw [hb2] at hx2
      cases hx2
  · obtain ⟨hx1mem, hx1id⟩ := findRouter_some_mem hx1
    have hx1in2 : x1 ∈ rs2 := hperm.mem_iff.mp hx1mem
    have hfr2 : findRouter rs2 i = some x1 := by
      have := findRouter_mem_some rs2 x1 hx1in2 hnd2
      rw [hx1id] at this
      exact this
    rcases findRouter_forall₂ (fun a b hab => hab.1) c2 i with
      ⟨_, hcontra⟩ | ⟨o2, x2, ho2, hx2, hR2⟩
    · rw [hfr2] at hcontra
      cases hcontra
    · have hx2x1 : x2 = x1 := by
        rw [hfr2] at hx2
        exact (Option.some.inj hx2).symm
      subst hx2x1
      rw [ho1, ho2, Option.map_some', Option.map_some', Option.some.injEq]
      have e1 := hR1.2.2 dest
      have e2 := hR2.2.2 dest
      rw [e1, e2]
      have hmem : ∀ c : Cost,
          c ∈ pairCands (buildSnapshots rs1) x2 (deliveryPairs rs1) dest ↔
          c ∈ pairCands (buildSnapshots rs2) x2 (deliveryPairs rs2) dest := by
        intro c
        rw [mem_pairCands_iff rs1 x2 dest c hnd, mem_pairCands_iff rs2 x2 dest c hnd2]
        constructor
        · rintro ⟨s, hs, rest⟩
          exact ⟨s, hperm.mem_iff.mp hs, rest⟩
        · rintro ⟨s, hs, rest⟩
          exact ⟨s, hperm.mem_iff.mpr hs, rest⟩
      apply Cost.ble_antisymm
      · rcases Cost.foldl_min_eq_or
            (pairCands (buildSnapshots rs2) x2 (deliveryPairs rs2) dest)
            (x2.get_distance dest) with hh | hh
        · rw [hh]
          exact Cost.foldl_min_ble_init _ _
        · exact Cost.foldl_min_ble_mem ((hmem _).mpr hh) _
      · rcases Cost.foldl_min_eq_or
            (pairCands (buildSnapshots rs1) x2 (deliveryPairs rs1) dest)
            (x2.get_distance dest) with hh | hh
        · rw [hh]
          exact Cost.foldl_min_ble_init _ _
        · exact Cost.foldl_min_ble_mem ((hmem _).mp hh) _

end ClaimEight

/-- C8 counterexample: the two roster orders of the square topology
converge to different routing tables — the distances agree but router
1's next hop toward destination 4 is 2 in one order and 3 in the other
(an equal-cost tie broken by delivery order). -/
theorem order_dependent_next_hops :
    finalEntry (run_distance_vector_simulation squareRosterA 30 none (1, 2)) 1 4 =
      some (Cost.fin 2, some 2) ∧
    finalEntry (run_distance_vector_simulation squareRosterB 30 none (1, 2)) 1 4 =
      some (Cost.fin 2, some 3) ∧
    ¬ finalEntry (run_distance_vector_simulation squareRosterA 30 none (1, 2)) 1 4 =
      finalEntry (run_distance_vector_simulation squareRosterB 30 none (1, 2)) 1 4 := by
  decide

/-!
## Concrete witnesses
-/

theorem update_table_strict_improvement_witness :
    (advW.map Prod.fst).Nodup ∧
    ((∀ k e, (k, e) ∈ advW → ¬ k = sqR1.router_id →
        lookupKey (sqR1.update_table_from_neighbor 2 advW).1.routing_table k =
          (if Cost.blt ((sqR1.costTo 2).add e.1) (curDist sqR1.routing_table k)
           then some ((sqR1.costTo 2).add e.1, some 2)
           else lookupKey sqR1.routing_table k)) ∧
     (∀ k, k ∉ advW.map Prod.fst →
        lookupKey (sqR1.update_table_from_neighbor 2 advW).1.routing_table k =
          lookupKey sqR1.routing_table k) ∧
     ((sqR1.update_table_from_neighbor 2 advW).2 = true ↔
        ∃ p ∈ advW, ¬ p.1 = sqR1.router_id ∧
          Cost.blt ((sqR1.costTo 2).add p.2.1) (curDist sqR1.routing_table p.1) = true)) :=
  ⟨by decide, update_table_strict_improvement sqR1 2 advW (by decide)⟩

theorem split_horizon_filter_witness :
    (sqR1.get_filtered_routing_table 2 =
        sqR1.routing_table.filter (fun e => !(decide (e.2.2 = some 2)))) ∧
    (∀ e ∈ sqR1.get_filtered_routing_table 2, ¬ e.2.2 = some 2) ∧
    (∀ e ∈ sqR1.routing_table, e.2.2 = none →
        e ∈ sqR1.get_filtered_routing_table 2) :=
  split_horizon_filter sqR1 2

theorem self_entry_invariant_witness :
    Reachable c3W ∧
    (lookupKey c3W.routing_table c3W.router_id = some (Cost.fin 0, none) ∧
     c3W.get_distance c3W.router_id = Cost.fin 0) := by
  have hre : Reachable c3W :=
    Reachable.update
      { router_id := 1, neighbors := [(2, Cost.fin 2)],
        routing_table := [(1, (Cost.fin 0, none))] } 2 [(2, (Cost.fin 0, none))]
      (Reachable.init 1 [(2, Cost.fin 2)])
  exact ⟨hre, self_entry_invariant c3W hre⟩

theorem distances_never_increase_witness :
    runRound (if false then simulate_link_failure mainRouters (1, 2) else mainRouters) =
      some (triRound1, 6) ∧
    List.Forall₂ (fun a b => ∀ dest,
      Cost.ble (a.get_distance dest) (b.get_distance dest) = true)
      triRound1 mainRouters := by
  have h : runRound
      (if false then simulate_link_failure mainRouters (1, 2) else mainRouters) =
      some (triRound1, 6) := by decide
  exact ⟨h, distances_never_increase mainRouters (1, 2) false triRound1 6 h⟩

theorem convergence_idempotent_witness :
    runRound triFinal = some (triFinal, 0) ∧
    (triFinal = triFinal ∧ runRound triFinal = some (triFinal, 0)) := by
  have h : runRound triFinal = some (triFinal, 0) := by decide
  exact ⟨h, convergence_idempotent triFinal triFinal h⟩

theorem round_distances_order_independent_witness :
    squareRosterA.Perm squareRosterB ∧
    (squareRosterA.map Router.router_id).Nodup ∧
    runRound squareRosterA = some (sqRound1A, 8) ∧
    runRound squareRosterB = some (sqRound1B, 8) ∧
    (findRouter sqRound1A 1).map (fun r => r.get_distance 4) =
      (findRouter sqRound1B 1).map (fun r => r.get_distance 4) := by
  have hperm : squareRosterA.Perm squareRosterB :=
    List.Perm.cons sqR1 (List.Perm.swap sqR3 sqR2 [sqR4])
  have h1 : runRound squareRosterA = some (sqRound1A, 8) := by decide
  have h2 : runRound squareRosterB = some (sqRound1B, 8) := by decide
  exact ⟨hperm, by decide, h1, h2,
    round_distances_order_independent squareRosterA squareRosterB sqRound1A sqRound1B
      8 8 hperm (by decide) h1 h2 1 4⟩

theorem router_init_validation_witness :
    Router.init (PyVal.intv 1) [(PyVal.intv 2, PyVal.intv 2)] = Except.ok c9W ∧
    (c9W.router_id = PyVal.intv 1 ∧
     c9W.routing_table = [(PyVal.intv 1, (Cost.fin 0, none))] ∧
     List.Forall₂ (fun q p => q.1 = p.1 ∧ p.2.asNumber = some q.2)
       c9W.neighbors [(PyVal.intv 2, PyVal.intv 2)]) := by
  have h : Router.init (PyVal.intv 1) [(PyVal.intv 2, PyVal.intv 2)] =
      Except.ok c9W := rfl
  exact ⟨h,
    (router_init_validation (PyVal.intv 1) [(PyVal.intv 2, PyVal.intv 2)]).2 c9W h⟩

theorem unreachable_link_ignores_adverts_witness :
    (lookupKey sqR1.neighbors 7 = some Cost.inf ∨
      lookupKey sqR1.neighbors 7 = none) ∧
    sqR1.update_table_from_neighbor 7 advW = (sqR1, false) := by
  have h : lookupKey sqR1.neighbors 7 = none := by decide
  exact ⟨Or.inr h, unreachable_link_ignores_adverts sqR1 7 advW (Or.inr h)⟩
